import Mathlib

/-!
# Verification of the BinRex / Poto media scanner core

This file gives a shallow embedding, in Lean 4, of the scanning and
indexing core of the Poto media scanner (repository `Nurysso/BinRex`,
directory `src/bins/Poto`).  The authoritative source is the full
application file (the complete `app.go` of the Poto application, the
second document stored in `src/bins/Poto/install.sh`): it contains the
configuration model (`ScannerConfig`, `FolderRule`, `PerformanceConfig`,
`PreviewConfig`), the traversal `scanDirectory`, the session entry points
`StartScan` / `StopScan` / `IsScanning`, the worker, the thumbnail
pipeline `generateImageThumbnail` / `generateVideoThumbnail`, and the
media index.  The React front end `frontend/src/App.tsx` supplies the
client-side filter that is modelled at the end of the file.

Modelling conventions:
* Filesystem paths are lists of name segments (`Path := List String`);
  `filepath.Join parent name` is `parent ++ [name]` and
  `filepath.Dir` drops the last segment.  This is faithful for the
  clean paths `filepath.WalkDir` produces.
* Directory trees are the inductive `FsTree`; `filepath.WalkDir`
  becomes structural recursion over the tree, and
  `return filepath.SkipDir` becomes "produce nothing for this subtree".
* External library calls (the Go `image` decoders, `nfnt/resize`,
  `encoding/base64`, `ffmpeg`) are parameters of the embedding; the
  control flow around them (extension dispatch, the `io.LimitReader`
  byte bound, error checks and the placement of the `defer`/`recover`
  guard) is embedded concretely from the source.
* Concurrency is sequentialised: the walker produces the queue of
  enqueued paths, workers map over it, and cancellation is an explicit
  cut-off point.
-/

namespace Poto

/-- A path, as the list of its name segments from the filesystem root. -/
abbrev Path := List String

/-- `type FolderRule struct` — per-directory allow/block/recursion policy. -/
structure FolderRule where
  allowedSubfolders : List String
  blockedSubfolders : List String
  scanRecursively : Bool
deriving DecidableEq, Repr

/-- `type ScannerConfig struct` — the scanner section of the TOML config.
`scanDirectories` is kept in the session-level model (it is not consulted
by the walk itself); the walk consults the four fields below. -/
structure ScannerConfig where
  excludedDirectories : List String
  ignorePatterns : List String
  ignoreHidden : Bool
  perFolderRules : List (Path × FolderRule)
deriving DecidableEq, Repr

/-- A directory tree: either a plain file or a directory with children,
in the (lexical) order `filepath.WalkDir` visits them. -/
inductive FsTree where
  | file (name : String)
  | dir (name : String) (children : List FsTree)

/-- Induction over `FsTree` with the hypothesis available for every
child of a directory node. -/
theorem FsTree.inductionOn {P : FsTree → Prop}
    (hfile : ∀ n, P (.file n))
    (hdir : ∀ n cs, (∀ c ∈ cs, P c) → P (.dir n cs)) : ∀ t, P t
  | .file n => hfile n
  | .dir n cs => hdir n cs (fun c _ => FsTree.inductionOn hfile hdir c)
decreasing_by
  have := List.sizeOf_lt_of_mem (by assumption)
  simp only [FsTree.dir.sizeOf_spec]
  omega

/-- `d.Name() != "" && d.Name()[0] == '.'` — the hidden-name test. -/
def isHiddenName (n : String) : Bool :=
  n ≠ "" && n.front == '.'

/-- `strings.ToLower` restricted to ASCII case folding (the
configuration entries the scanner compares are ASCII names). -/
def strLower (s : String) : String :=
  String.mk (s.toList.map Char.toLower)

/-- The core of `filepath.Match` for patterns built from literals,
`*` and `?` (the only pattern forms the scanner's configuration uses);
bracket classes and escapes of the full matcher are outside the model.
The recursion is driven by explicit fuel so that the definition is
structural (and so evaluates inside the kernel); every recursive call
shrinks `pattern.length + chars.length`, so the fuel `globMatch`
supplies never runs out. -/
def globMatchAux : Nat → List Char → List Char → Bool
  | 0, _, _ => false
  | _ + 1, [], [] => true
  | fuel + 1, '*' :: ps, cs =>
    globMatchAux fuel ps cs ||
      (match cs with
       | [] => false
       | _ :: cs' => globMatchAux fuel ('*' :: ps) cs')
  | fuel + 1, '?' :: ps, _ :: cs => globMatchAux fuel ps cs
  | fuel + 1, p :: ps, c :: cs => p == c && globMatchAux fuel ps cs
  | _ + 1, _, _ => false

/-- Wildcard match of a name against a pattern. -/
def globMatch (ps cs : List Char) : Bool :=
  globMatchAux (ps.length + cs.length + 1) ps cs

/-- Association-list lookup for `a.config.Scanner.PerFolderRules[parentDir]`. -/
def lookupRule : List (Path × FolderRule) → Path → Option FolderRule
  | [], _ => none
  | (k, r) :: rest, p => if k = p then some r else lookupRule rest p

/-- `strings.Count(relPath, string(os.PathSeparator))` applied to the
path of the directory relative to its parent, which is its base name. -/
def countSep (n : String) : Nat :=
  (n.toList.filter (fun c => c = '/')).length

/-- The directory-skip decision of the `filepath.WalkDir` callback in
`scanDirectory` (the `if d.IsDir() { ... return filepath.SkipDir ... }`
block): hidden names, the excluded-directories list (matched after
`strings.ToLower` on both sides), the ignore wildcard patterns, and the
per-folder rule of the parent directory (allow-list, block-list, and the
recursion flag applied to `filepath.Rel(parentDir, path)`, which is the
base name).  `true` means the walk returns `filepath.SkipDir`. -/
def dirSkip (cfg : ScannerConfig) (name : String) (parent : Path) : Bool :=
  (cfg.ignoreHidden && isHiddenName name)
  || (cfg.excludedDirectories.map strLower).contains (strLower name)
  || cfg.ignorePatterns.any (fun p => globMatch p.toList name.toList)
  || (match lookupRule cfg.perFolderRules parent with
      | none => false
      | some rule =>
        (decide (rule.allowedSubfolders ≠ []) && !(rule.allowedSubfolders.contains name))
        || rule.blockedSubfolders.contains name
        || (!rule.scanRecursively && decide (0 < countSep name)))

mutual

/-- The paths that the `filepath.WalkDir` callback of `scanDirectory`
sends into `pathChan` (the `if !d.IsDir() { pathChan <- path }` branch),
for the tree `t` whose parent directory is `parent`.  A directory for
which `dirSkip` holds returns `filepath.SkipDir`, so its whole subtree
contributes nothing.  Plain files are enqueued unconditionally: the
callback applies no name test to them. -/
def walkCollect (cfg : ScannerConfig) (parent : Path) : FsTree → List Path
  | .file n => [parent ++ [n]]
  | .dir n cs =>
    if dirSkip cfg n parent then []
    else walkChildren cfg (parent ++ [n]) cs

/-- `walkCollect` over the children of a directory, in visit order. -/
def walkChildren (cfg : ScannerConfig) (parent : Path) : List FsTree → List Path
  | [] => []
  | c :: cs => walkCollect cfg parent c ++ walkChildren cfg parent cs

end

mutual

/-- Every file path of the tree, with no policy applied (the universe
the scanner's decisions are compared against). -/
def allFilePaths (parent : Path) : FsTree → List Path
  | .file n => [parent ++ [n]]
  | .dir n cs => allFileChildren (parent ++ [n]) cs

/-- `allFilePaths` over a list of children. -/
def allFileChildren (parent : Path) : List FsTree → List Path
  | [] => []
  | c :: cs => allFilePaths parent c ++ allFileChildren parent cs

end

mutual

/-- The paths of all directory nodes of the tree (reachable or not) for
which `dirSkip` decides skip-subtree. -/
def skippedDirPaths (cfg : ScannerConfig) (parent : Path) : FsTree → List Path
  | .file _ => []
  | .dir n cs =>
    (if dirSkip cfg n parent then [parent ++ [n]] else [])
      ++ skippedDirChildren cfg (parent ++ [n]) cs

/-- `skippedDirPaths` over a list of children. -/
def skippedDirChildren (cfg : ScannerConfig) (parent : Path) : List FsTree → List Path
  | [] => []
  | c :: cs => skippedDirPaths cfg parent c ++ skippedDirChildren cfg parent cs

end

theorem mem_walkChildren {cfg : ScannerConfig} {parent : Path} {cs : List FsTree} {q : Path} :
    q ∈ walkChildren cfg parent cs ↔ ∃ c ∈ cs, q ∈ walkCollect cfg parent c := by
  induction cs with
  | nil => simp [walkChildren]
  | cons c cs ih => simp [walkChildren, ih, List.mem_append]

theorem mem_allFileChildren {parent : Path} {cs : List FsTree} {q : Path} :
    q ∈ allFileChildren parent cs ↔ ∃ c ∈ cs, q ∈ allFilePaths parent c := by
  induction cs with
  | nil => simp [allFileChildren]
  | cons c cs ih => simp [allFileChildren, ih, List.mem_append]

theorem mem_skippedDirChildren {cfg : ScannerConfig} {parent : Path} {cs : List FsTree} {q : Path} :
    q ∈ skippedDirChildren cfg parent cs ↔ ∃ c ∈ cs, q ∈ skippedDirPaths cfg parent c := by
  induction cs with
  | nil => simp [skippedDirChildren]
  | cons c cs ih => simp [skippedDirChildren, ih, List.mem_append]

/-- Every path the walk enqueues strictly extends the directory the
walk started from. -/
theorem walkCollect_extends {cfg : ScannerConfig} :
    ∀ t : FsTree, ∀ parent q : Path, q ∈ walkCollect cfg parent t →
      parent <+: q ∧ parent.length < q.length := by
  intro t
  induction t using FsTree.inductionOn with
  | hfile n =>
    intro parent q hq
    simp only [walkCollect, List.mem_singleton] at hq
    subst hq
    exact ⟨⟨[n], rfl⟩, by simp⟩
  | hdir n cs ih =>
    intro parent q hq
    simp only [walkCollect] at hq
    split at hq
    · simp at hq
    · obtain ⟨c, hc, hqc⟩ := mem_walkChildren.mp hq
      obtain ⟨hpre, hlen⟩ := ih c hc (parent ++ [n]) q hqc
      refine ⟨.trans ⟨[n], rfl⟩ hpre, ?_⟩
      simp at hlen
      omega

/-- Every file path of the tree strictly extends the starting directory. -/
theorem allFilePaths_extends :
    ∀ t : FsTree, ∀ parent q : Path, q ∈ allFilePaths parent t →
      parent <+: q ∧ parent.length < q.length := by
  intro t
  induction t using FsTree.inductionOn with
  | hfile n =>
    intro parent q hq
    simp only [allFilePaths, List.mem_singleton] at hq
    subst hq
    exact ⟨⟨[n], rfl⟩, by simp⟩
  | hdir n cs ih =>
    intro parent q hq
    simp only [allFilePaths] at hq
    obtain ⟨c, hc, hqc⟩ := mem_allFileChildren.mp hq
    obtain ⟨hpre, hlen⟩ := ih c hc (parent ++ [n]) q hqc
    refine ⟨.trans ⟨[n], rfl⟩ hpre, ?_⟩
    simp at hlen
    omega

/-- Shape of an entry of `skippedDirPaths`: it is the path of a
directory node, one segment below its parent, and `dirSkip` holds of
it. -/
theorem skippedDirPaths_shape {cfg : ScannerConfig} :
    ∀ t : FsTree, ∀ parent s : Path, s ∈ skippedDirPaths cfg parent t →
      ∃ s' n, s = s' ++ [n] ∧ parent.length ≤ s'.length ∧ dirSkip cfg n s' = true := by
  intro t
  induction t using FsTree.inductionOn with
  | hfile n => intro parent s hs; simp [skippedDirPaths] at hs
  | hdir n cs ih =>
    intro parent s hs
    simp only [skippedDirPaths, List.mem_append] at hs
    rcases hs with hs | hs
    · split at hs
      · simp only [List.mem_singleton] at hs
        exact ⟨parent, n, hs, le_refl _, by assumption⟩
      · simp at hs
    · obtain ⟨c, hc, hsc⟩ := mem_skippedDirChildren.mp hs
      obtain ⟨s', m, rfl, hlen, hskip⟩ := ih c hc (parent ++ [n]) s hsc
      exact ⟨s', m, rfl, by simp at hlen; omega, hskip⟩

/-! ## Classifier and path helpers (`worker`, `filepath` functions) -/

/-- `imageExts` — the image-extension table. -/
def imageExts : List String :=
  [".jpg", ".jpeg", ".png", ".gif", ".bmp", ".webp", ".svg", ".ico",
   ".tiff", ".tif", ".heic", ".heif"]

/-- `videoExts` — the video-extension table. -/
def videoExts : List String :=
  [".mp4", ".avi", ".mkv", ".mov", ".wmv", ".flv", ".webm", ".m4v",
   ".mpg", ".mpeg", ".3gp", ".ogv"]

/-- The classification step of `worker`: `imageExts[ext]` gives
`"image"`, else `videoExts[ext]` gives `"video"`, else the path is
dropped (`continue`). -/
def classifyExt (ext : String) : Option String :=
  if imageExts.contains ext then some "image"
  else if videoExts.contains ext then some "video"
  else none

/-- Splitting a character list at a separator (the semantics of
`strings.Split`). -/
def splitChars (sep : Char) : List Char → List (List Char)
  | [] => [[]]
  | c :: cs =>
    let rest := splitChars sep cs
    if c = sep then [] :: rest
    else
      match rest with
      | [] => [[c]]
      | s :: ss => (c :: s) :: ss

/-- A string path split into segments (the inverse of joining a `Path`
with `/`; faithful for the clean paths the walker produces). -/
def splitPath (p : String) : List String :=
  (splitChars '/' p.toList).map String.mk

/-- `filepath.Base` on a clean path. -/
def baseName (p : String) : String := (splitPath p).getLastD ""

/-- The suffix of a name starting at its last dot, if any. -/
def lastDotSuffix : List Char → Option (List Char)
  | [] => none
  | c :: cs =>
    match lastDotSuffix cs with
    | some s => some s
    | none => if c = '.' then some (c :: cs) else none

/-- `filepath.Ext` on a clean path: the suffix of the final element
beginning at its final dot, or `""`. -/
def extOf (p : String) : String :=
  String.mk ((lastDotSuffix (baseName p).toList).getD [])

/-- `filepath.Dir` on a clean path. -/
def dirName (p : String) : String :=
  match (splitPath p).dropLast with
  | [] => "."
  | segs => String.intercalate "/" segs

/-- Rendering a segment path as the string the walker hands to the
workers. -/
def pathToString (q : Path) : String := String.intercalate "/" q

/-- `type MediaFile struct` of the full application. -/
structure MediaFile where
  path : String
  name : String
  size : Int
  type : String
  thumbnail : String
  modifiedTime : Int
  parentFolder : String
deriving DecidableEq, Repr

/-- What the (modelled) filesystem knows about a regular file: its
byte contents and its modification time.  `os.Stat` and `os.Open`
succeed exactly on the files present. -/
structure FileData where
  content : List Nat
  modTime : Int
deriving DecidableEq, Repr

/-- The filesystem as seen by workers: path to file data. -/
abbrev FS := String → Option FileData

/-! ## Thumbnail pipeline (`generateImageThumbnail`,
`generateVideoThumbnail`)

The Go image codecs (`image/jpeg`, `image/png`, …, `x/image/...`), the
`nfnt/resize` resampler and `encoding/base64` are external libraries;
they enter the model as the fields of `ImageOps`.  A library call that
can `panic` at runtime returns a `fault` outcome.  The control flow of
`generateImageThumbnail` around them — the extension dispatch, the
`io.LimitReader` byte bound, the `err` check, and crucially the fact
that the `defer`/`recover` guard is only installed *after* the decode
call — is embedded concretely. -/

/-- Outcome of a decoder call: a decoded image, an error return, or a
runtime fault (`panic`). -/
inductive DecodeResult (Img : Type) where
  | ok (img : Img)
  | err
  | fault
deriving DecidableEq, Repr

/-- Outcome of a post-decode library step (palette conversion, resize,
encode): a value, or a runtime fault (`panic`). -/
inductive PStep (α : Type) where
  | ok (a : α)
  | fault
deriving DecidableEq, Repr

/-- The external image operations `generateImageThumbnail` calls. -/
structure ImageOps (Img : Type) where
  jpegDecode : List Nat → DecodeResult Img
  pngDecode : List Nat → DecodeResult Img
  gifDecode : List Nat → DecodeResult Img
  bmpDecode : List Nat → DecodeResult Img
  tiffDecode : List Nat → DecodeResult Img
  webpDecode : List Nat → DecodeResult Img
  sniffDecode : List Nat → DecodeResult Img
  isPaletted : Img → Bool
  paletteToRGBA : Img → PStep Img
  width : Img → Int
  height : Img → Int
  resizeL3 : Nat → Nat → Img → PStep Img
  jpegEncode : Nat → Img → PStep (Option (List Nat))
  base64 : List Nat → String

/-- The `switch ext` decoder dispatch of `generateImageThumbnail`;
unknown extensions fall back to `image.Decode` format sniffing. -/
def decodeByExt {Img : Type} (ops : ImageOps Img) (ext : String) (bs : List Nat) :
    DecodeResult Img :=
  match ext with
  | ".jpg" | ".jpeg" => ops.jpegDecode bs
  | ".png" => ops.pngDecode bs
  | ".gif" => ops.gifDecode bs
  | ".bmp" => ops.bmpDecode bs
  | ".tiff" | ".tif" => ops.tiffDecode bs
  | ".webp" => ops.webpDecode bs
  | _ => ops.sniffDecode bs

/-- `type PreviewConfig struct` (the `video_thumbnail_offset` float only
parameterises the external `ffmpeg` invocation and is absorbed into the
`VideoEnv` oracle). -/
structure PreviewConfig where
  quality : String
  jpegQuality : Nat
  videoThumbnails : Bool
deriving DecidableEq, Repr

/-- `type PerformanceConfig struct`. -/
structure PerformanceConfig where
  workerThreads : Nat
  batchSize : Nat
  maxThumbnailSize : Nat
deriving DecidableEq, Repr

/-- The `switch a.config.Preview.Quality` bounding-dimension tiers
(the variable is initialised to 512, so unknown tiers keep 512). -/
def maxDimension (quality : String) : Nat :=
  match quality with
  | "low" => 512
  | "medium" => 1200
  | "high" => 2400
  | _ => 512

/-- The aspect-preserving target-size computation of
`generateImageThumbnail`.  The Go code computes the scaled side in
`float64` and truncates with `uint(...)`; for the value ranges involved
this is integer floor division, which is how it is modelled. -/
def targetDims (maxDim : Nat) (w h : Int) : Nat × Nat :=
  if h < w then
    if (maxDim : Int) < w then (maxDim, ((h * maxDim) / w).toNat)
    else (w.toNat, h.toNat)
  else
    if (maxDim : Int) < h then (((w * maxDim) / h).toNat, maxDim)
    else (w.toNat, h.toNat)

/-- Result of `generateImageThumbnail`: a returned string, or a panic
that escapes the function (and kills the worker goroutine). -/
inductive ThumbResult where
  | ret (s : String)
  | panicked
deriving DecidableEq, Repr

/-- `func (a *App) generateImageThumbnail(imagePath string) string`.

* `os.Open` failure returns `""`.
* `io.LimitReader(file, maxSize)` with
  `maxSize = MaxThumbnailSize*1024*1024` means the decoder sees at most
  the first `maxSize` bytes of the file.
* A decode `err` returns `""`.  A decoder panic is **not** recovered:
  the `defer func() { recover() }()` guard is installed only after the
  decode `switch` and its error check, so a decode fault escapes.
* From the guard on, a fault in palette conversion, resize or encode is
  recovered and the function returns the zero value `""`.
* A `jpeg.Encode` error returns `""`; otherwise the JPEG bytes are
  base64-wrapped as an inline data URL. -/
def generateImageThumbnail {Img : Type} (pcfg : PerformanceConfig) (vcfg : PreviewConfig)
    (ops : ImageOps Img) (fs : FS) (path : String) : ThumbResult :=
  match fs path with
  | none => .ret ""
  | some fd =>
    let ext := strLower (extOf path)
    let maxSize := pcfg.maxThumbnailSize * 1024 * 1024
    let bytes := fd.content.take maxSize
    match decodeByExt ops ext bytes with
    | .fault => .panicked
    | .err => .ret ""
    | .ok img =>
      match (if ops.isPaletted img then ops.paletteToRGBA img else .ok img) with
      | .fault => .ret ""
      | .ok img2 =>
        let dims := targetDims (maxDimension vcfg.quality) (ops.width img2) (ops.height img2)
        match ops.resizeL3 dims.1 dims.2 img2 with
        | .fault => .ret ""
        | .ok thumb =>
          match ops.jpegEncode vcfg.jpegQuality thumb with
          | .fault => .ret ""
          | .ok none => .ret ""
          | .ok (some data) => .ret ("data:image/jpeg;base64," ++ ops.base64 data)

/-- The externals `generateVideoThumbnail` touches: `exec.LookPath`
for `ffmpeg`, `os.CreateTemp`, and the combined
invoke-ffmpeg-then-read-temp-file step at the configured time offset. -/
structure VideoEnv where
  ffmpegPresent : Bool
  tmpCreateOk : Bool
  frame : String → Option (List Nat)

/-- `func (a *App) generateVideoThumbnail(videoPath string) string`:
missing tool, temp-file failure, `ffmpeg` failure or an unreadable
output file all yield `""`; success yields a base64 data URL. -/
def generateVideoThumbnail (base64 : List Nat → String) (env : VideoEnv)
    (path : String) : String :=
  if !env.ffmpegPresent then ""
  else if !env.tmpCreateOk then ""
  else
    match env.frame path with
    | none => ""
    | some data => "data:image/jpeg;base64," ++ base64 data

/-! ## Worker (`func (a *App) worker`) -/

/-- What the worker does with one path pulled from `pathChan`:
drop it (`continue`), emit a `MediaFile` into `mediaChan`, or crash
(an unrecovered panic escaping `generateImageThumbnail`). -/
inductive WorkerAct where
  | dropped
  | emit (m : MediaFile)
  | crash
deriving DecidableEq, Repr

/-- The body of the worker loop for a single path: classify by
(lower-cased) extension, `os.Stat`, build the `MediaFile`, and populate
the thumbnail — images through `generateImageThumbnail`, videos through
`generateVideoThumbnail` only when `Preview.VideoThumbnails` is set.
The Go code assigns `media.Thumbnail` only when the generated string is
non-empty; since the zero value is already `""`, the assignment is the
generated string either way. -/
def processPath {Img : Type} (pcfg : PerformanceConfig) (vcfg : PreviewConfig)
    (ops : ImageOps Img) (env : VideoEnv) (fs : FS) (path : String) : WorkerAct :=
  let ext := strLower (extOf path)
  match classifyExt ext with
  | none => .dropped
  | some mediaType =>
    match fs path with
    | none => .dropped
    | some fd =>
      let media : MediaFile :=
        { path := path
          name := baseName path
          size := (fd.content.length : Int)
          type := mediaType
          thumbnail := ""
          modifiedTime := fd.modTime
          parentFolder := dirName path }
      if mediaType = "image" then
        match generateImageThumbnail pcfg vcfg ops fs path with
        | .panicked => .crash
        | .ret thumb => .emit { media with thumbnail := thumb }
      else if mediaType = "video" && vcfg.videoThumbnails then
        .emit { media with thumbnail := generateVideoThumbnail ops.base64 env path }
      else
        .emit media

/-- The record a worker pushes for a path, if any. -/
def emittedOf : WorkerAct → Option MediaFile
  | .emit m => some m
  | _ => none

/-- The `MediaFile` records of one scan: the walker's enqueued paths,
each processed by a worker. -/
def scanRecords {Img : Type} (cfg : ScannerConfig) (pcfg : PerformanceConfig)
    (vcfg : PreviewConfig) (ops : ImageOps Img) (env : VideoEnv) (fs : FS)
    (parent : Path) (t : FsTree) : List MediaFile :=
  (walkCollect cfg parent t).filterMap
    (fun q => emittedOf (processPath pcfg vcfg ops env fs (pathToString q)))

/-! ## Scan session (`StartScan`, `StopScan`, `IsScanning`,
`performScan`, `performMultiScan`) and the event stream -/

/-- The mutable fields of `type App struct` that the session entry
points touch: the atomic `scanning` flag, whether `cancelFn` is set,
whether it has been invoked, and the four media-index structures that
`StartScan` clears. -/
structure AppState where
  scanning : Bool
  cancelFnSet : Bool
  cancelFired : Bool
  mediaDB : List (String × MediaFile)
  folderIndex : List (String × List String)
  typeIndex : List (String × List String)
  dateIndex : List String
deriving DecidableEq, Repr

/-- `func (a *App) IsScanning() bool`. -/
def IsScanning (s : AppState) : Bool := s.scanning

/-- `func (a *App) StopScan()`: invoke `cancelFn` if set, clear it,
and store `false` into the `scanning` flag. -/
def StopScan (s : AppState) : AppState :=
  { s with
    cancelFired := s.cancelFired || s.cancelFnSet
    cancelFnSet := false
    scanning := false }

/-- Which traversal goroutine `StartScan` launches. -/
inductive Launch where
  | multi (dirs : List String)
  | single (path : String)
deriving DecidableEq, Repr

/-- `func (a *App) StartScan(startPath string) error`.

In source order: reject if already scanning; clear the four index
structures; empty start path with configured scan directories launches
`performMultiScan` over them, empty start path without them falls back
to the home directory; a non-empty start path is validated against the
configured scan directories (equal, or below one of them) before
`performScan` is launched. -/
def StartScan (s : AppState) (scanDirectories : List String) (home : Option String)
    (startPath : String) : AppState × Except String Launch :=
  if s.scanning then (s, .error "scan already in progress")
  else
    let s1 : AppState :=
      { s with mediaDB := [], folderIndex := [], typeIndex := [], dateIndex := [] }
    if startPath = "" then
      if !scanDirectories.isEmpty then
        ({ s1 with scanning := true, cancelFnSet := true }, .ok (.multi scanDirectories))
      else
        match home with
        | none => (s1, .error "home directory unavailable")
        | some h => ({ s1 with scanning := true, cancelFnSet := true }, .ok (.single h))
    else
      if scanDirectories.isEmpty
          || scanDirectories.any (fun d => startPath = d || (d ++ "/").isPrefixOf startPath) then
        ({ s1 with scanning := true, cancelFnSet := true }, .ok (.single startPath))
      else
        (s1, .error "directory not in allowed scan directories")

/-- The directories `performMultiScan` hands to `scanDirectory`, in
loop order; a cancellation before iteration `k` stops the loop there. -/
def performMultiScanVisits : Option Nat → List String → List String
  | _, [] => []
  | some 0, _ :: _ => []
  | some (k + 1), d :: ds => d :: performMultiScanVisits (some k) ds
  | none, d :: ds => d :: performMultiScanVisits none ds

/-- `type ScanProgress struct`. -/
structure ScanProgress where
  scannedFiles : Nat
  foundMedia : Nat
  currentPath : String
  isComplete : Bool
deriving DecidableEq, Repr

/-- One notification emitted through `runtime.EventsEmit`. -/
inductive ScanEvent where
  | mediaFound (batch : List MediaFile)
  | progress (p : ScanProgress)
  | scanError (msg : String)
deriving DecidableEq, Repr

/-- The collector's batching loop: append each record to the pending
batch and flush it once it reaches `BatchSize`; after the channel
closes, flush the non-empty remainder. -/
def collectBatches (batchSize : Nat) (ms : List MediaFile) : List (List MediaFile) :=
  let st := ms.foldl
    (fun (st : List (List MediaFile) × List MediaFile) m =>
      let cur := st.2 ++ [m]
      if batchSize ≤ cur.length then (st.1 ++ [cur], []) else (st.1, cur))
    ([], [])
  if st.2.isEmpty then st.1 else st.1 ++ [st.2]

/-- Does the worker count a pulled path in `foundMedia`?  It does as
soon as classification and `os.Stat` succeed (even if thumbnail
generation later crashes). -/
def actCounted : WorkerAct → Bool
  | .dropped => false
  | _ => true

/-- The sequentialised event stream of one `scanDirectory` call.

`enqueued` is the path queue produced by the walk, and cancellation is
the cut-off `procCount`: the workers process the first `procCount`
queued paths and drop the rest (a fired context makes both the walker's
sends and the workers' receives abort).  `mid` abstracts the in-walk
progress snapshots (their counter values are reads of racing atomics);
the code constructs every one of them with `IsComplete: false`.  After
`close(pathChan)`, `wg.Wait()` and `close(mediaChan)` the function
always emits a final `ScanProgress` with `IsComplete: true` — also on
the cancellation path, because `filepath.SkipAll` just ends the walk. -/
def scanDirectoryTrace {Img : Type} (pcfg : PerformanceConfig) (vcfg : PreviewConfig)
    (ops : ImageOps Img) (env : VideoEnv) (fs : FS) (enqueued : List String)
    (procCount : Nat) (mid : List (Nat × Nat × String)) : List ScanEvent :=
  let processed := enqueued.take procCount
  let acts := processed.map (processPath pcfg vcfg ops env fs)
  let medias := acts.filterMap emittedOf
  (mid.map (fun x => ScanEvent.progress ⟨x.1, x.2.1, x.2.2, false⟩))
    ++ (collectBatches pcfg.batchSize medias).map ScanEvent.mediaFound
    ++ [ScanEvent.progress ⟨processed.length, (acts.filter actCounted).length, "", true⟩]

/-- `func (a *App) performScan`: one `scanDirectory` call followed by
its own zero-valued completion notification. -/
def performScanTrace {Img : Type} (pcfg : PerformanceConfig) (vcfg : PreviewConfig)
    (ops : ImageOps Img) (env : VideoEnv) (fs : FS) (enqueued : List String)
    (procCount : Nat) (mid : List (Nat × Nat × String)) : List ScanEvent :=
  scanDirectoryTrace pcfg vcfg ops env fs enqueued procCount mid
    ++ [ScanEvent.progress ⟨0, 0, "", true⟩]

/-- All records delivered by the `mediaFound` notifications of an event
stream, in emission order. -/
def delivered (evs : List ScanEvent) : List MediaFile :=
  evs.flatMap (fun e => match e with
    | .mediaFound b => b
    | _ => [])

/-! ## Front-end filter (`frontend/src/App.tsx`, the
"Filter and sort media" effect) -/

/-- The front end's view of a media record (`convertMediaFile`). -/
structure TsMedia where
  path : String
  name : String
  size : Int
  type : String
  thumbnail : String
  modifiedTime : Int
deriving DecidableEq, Repr

/-- Contiguous-substring test on character lists. -/
def charsInfix (needle : List Char) : List Char → Bool
  | [] => needle.isEmpty
  | c :: cs => needle.isPrefixOf (c :: cs) || charsInfix needle cs

/-- JavaScript `String.prototype.includes`. -/
def strIncludes (hay needle : String) : Bool :=
  charsInfix needle.toList hay.toList

/-- The comparator of the effect's `filtered.sort(...)`, as a
boolean "may come before" relation: by name, by size descending, by
type, or by date descending; any other `sortBy` compares everything
equal (comparator `0`). -/
def tsSortLE (sortBy : String) (a b : TsMedia) : Bool :=
  if sortBy = "name" then a.name ≤ b.name
  else if sortBy = "size" then b.size ≤ a.size
  else if sortBy = "type" then a.type ≤ b.type
  else if sortBy = "date" then b.modifiedTime ≤ a.modifiedTime
  else true

/-- Insertion into a sorted list (stable-sort model of
`Array.prototype.sort`). -/
def insertSorted (le : TsMedia → TsMedia → Bool) (a : TsMedia) :
    List TsMedia → List TsMedia
  | [] => [a]
  | b :: l => if le a b then a :: b :: l else b :: insertSorted le a l

/-- Stable sort used to model `filtered.sort(...)`. -/
def tsSort (le : TsMedia → TsMedia → Bool) : List TsMedia → List TsMedia
  | [] => []
  | a :: l => insertSorted le a (tsSort le l)

/-- The filter-and-sort effect of `App.tsx`: start from all media;
apply the kind filter when `filter !== 'all'`; the search filter when
`searchTerm` is truthy (case-insensitive containment in name or path);
the folder filter when `filterOptions.folderPath` is truthy (path
prefix); the date-range filters when the bounds are truthy; then sort
by the selected key. -/
def filterAndSortMedia (files : List TsMedia) (filter searchTerm folderPath : String)
    (fromDate toDate : Option Int) (sortBy : String) : List TsMedia :=
  let l := files
  let l := if filter ≠ "all" then l.filter (fun m => m.type = filter) else l
  let l := if searchTerm ≠ "" then
      l.filter (fun m =>
        strIncludes (strLower m.name) (strLower searchTerm)
          || strIncludes (strLower m.path) (strLower searchTerm))
    else l
  let l := if folderPath ≠ "" then l.filter (fun m => folderPath.isPrefixOf m.path) else l
  let l := match fromDate with
    | some d => l.filter (fun m => d ≤ m.modifiedTime)
    | none => l
  let l := match toDate with
    | some d => l.filter (fun m => m.modifiedTime ≤ d)
    | none => l
  tsSort (tsSortLE sortBy) l

theorem mem_insertSorted {le : TsMedia → TsMedia → Bool} {a x : TsMedia}
    {l : List TsMedia} : x ∈ insertSorted le a l ↔ x = a ∨ x ∈ l := by
  induction l with
  | nil => simp [insertSorted]
  | cons b l ih =>
    simp only [insertSorted]
    split
    · simp [List.mem_cons]
    · simp only [List.mem_cons, ih]
      tauto

theorem mem_tsSort {le : TsMedia → TsMedia → Bool} {x : TsMedia} {l : List TsMedia} :
    x ∈ tsSort le l ↔ x ∈ l := by
  induction l with
  | nil => simp [tsSort]
  | cons a l ih => simp [tsSort, mem_insertSorted, ih]

/-- Two prefixes of the same list with equal lengths are equal. -/
theorem prefix_eq_of_length {q p₁ p₂ : Path} (h₁ : p₁ <+: q) (h₂ : p₂ <+: q)
    (h : p₁.length = p₂.length) : p₁ = p₂ :=
  (List.prefix_of_prefix_length_le h₁ h₂ h.le).eq_of_length h

/-- Soundness of the pruning walk: along the path of every enqueued
file, every intermediate directory below the starting point was visited
with a negative `dirSkip` decision.  (`s' ++ [n]` ranges over the proper
prefixes of `q` that are at least one segment deeper than the starting
directory: these are exactly the directories the walk descended
through.) -/
theorem walkCollect_chain {cfg : ScannerConfig} :
    ∀ t : FsTree, ∀ parent q : Path, q ∈ walkCollect cfg parent t →
      ∀ s' : Path, ∀ n : String, s' ++ [n] <+: q → parent.length ≤ s'.length →
        s' ++ [n] ≠ q → dirSkip cfg n s' = false := by
  intro t
  induction t using FsTree.inductionOn with
  | hfile m =>
    intro parent q hq s' n h1 h2 h3
    simp only [walkCollect, List.mem_singleton] at hq
    subst hq
    exfalso
    have hle := h1.length_le
    simp at hle
    rcases Nat.lt_or_ge s'.length parent.length with h | h
    · omega
    · have : (s' ++ [n]).length = (parent ++ [m]).length := by simp; omega
      exact h3 (prefix_eq_of_length h1 (List.prefix_refl _) this)
  | hdir m cs ih =>
    intro parent q hq s' n h1 h2 h3
    simp only [walkCollect] at hq
    split at hq
    · simp at hq
    · obtain ⟨c, hc, hqc⟩ := mem_walkChildren.mp hq
      rcases Nat.eq_or_lt_of_le h2 with heq | hlt
      · -- the decomposition points at this very directory node
        obtain ⟨hq_pre, _⟩ := walkCollect_extends c (parent ++ [m]) q hqc
        have hs'q : s' <+: q := .trans ⟨[n], rfl⟩ h1
        have hparq : parent <+: q := .trans ⟨[m], rfl⟩ hq_pre
        have hsp : s' = parent := prefix_eq_of_length hs'q hparq heq.symm
        subst hsp
        have : s' ++ [n] = s' ++ [m] := by
          refine prefix_eq_of_length h1 hq_pre (by simp)
        have hnm : n = m := by simpa using this
        subst hnm
        simpa using ‹¬dirSkip cfg n s' = true›
      · exact ih c hc (parent ++ [m]) q hqc s' n h1 (by simp; omega) h3

/-- Completeness of the pruning walk: a file of the tree all of whose
intermediate directories pass `dirSkip` is enqueued. -/
theorem walkCollect_complete {cfg : ScannerConfig} :
    ∀ t : FsTree, ∀ parent q : Path, q ∈ allFilePaths parent t →
      (∀ s' : Path, ∀ n : String, s' ++ [n] <+: q → parent.length ≤ s'.length →
        s' ++ [n] ≠ q → dirSkip cfg n s' = false) →
      q ∈ walkCollect cfg parent t := by
  intro t
  induction t using FsTree.inductionOn with
  | hfile n =>
    intro parent q hq _
    simp only [allFilePaths, List.mem_singleton] at hq
    simp [walkCollect, hq]
  | hdir n cs ih =>
    intro parent q hq hchain
    simp only [allFilePaths] at hq
    obtain ⟨c, hc, hqc⟩ := mem_allFileChildren.mp hq
    obtain ⟨hpre, hlen⟩ := allFilePaths_extends c (parent ++ [n]) q hqc
    have hskip : dirSkip cfg n parent = false := by
      refine hchain parent n hpre (le_refl _) ?_
      intro hcontra
      rw [hcontra] at hlen
      simp at hlen
    have hunfold : walkCollect cfg parent (.dir n cs) =
        walkChildren cfg (parent ++ [n]) cs := by
      simp [walkCollect, hskip]
    rw [hunfold]
    refine mem_walkChildren.mpr ⟨c, hc, ?_⟩
    refine ih c hc (parent ++ [n]) q hqc ?_
    intro s' m h1 h2 h3
    exact hchain s' m h1 (by simp at h2 ⊢; omega) h3

/-! ## Helper lemmas about the worker and the event stream -/

/-- A record emitted by the worker for a path carries that path. -/
theorem emitted_path_eq {Img : Type} (pcfg : PerformanceConfig) (vcfg : PreviewConfig)
    (ops : ImageOps Img) (env : VideoEnv) (fs : FS) (path : String) (m : MediaFile)
    (h : emittedOf (processPath pcfg vcfg ops env fs path) = some m) : m.path = path := by
  simp only [processPath] at h
  split at h
  · simp [emittedOf] at h
  · split at h
    · simp [emittedOf] at h
    · split at h
      · split at h
        · simp [emittedOf] at h
        · simp only [emittedOf, Option.some.injEq] at h
          rw [← h]
      · split at h
        · simp only [emittedOf, Option.some.injEq] at h
          rw [← h]
        · simp only [emittedOf, Option.some.injEq] at h
          rw [← h]

/-- Without cancellation, `performMultiScan` visits every configured
directory, in order. -/
theorem performMultiScanVisits_none (dirs : List String) :
    performMultiScanVisits none dirs = dirs := by
  induction dirs with
  | nil => rfl
  | cons d ds ih => simp [performMultiScanVisits, ih]

/-- The records delivered during a prefix of an event stream are a
prefix of all delivered records: nothing is retracted later. -/
theorem delivered_take_prefix (evs : List ScanEvent) (j : Nat) :
    delivered (evs.take j) <+: delivered evs := by
  induction evs generalizing j with
  | nil => simp [delivered]
  | cons e evs ih =>
    match j with
    | 0 => exact ⟨delivered (e :: evs), by simp [delivered]⟩
    | j + 1 =>
      obtain ⟨tail, htail⟩ := ih j
      refine ⟨tail, ?_⟩
      simp only [List.take, delivered, List.flatMap_cons] at htail ⊢
      rw [List.append_assoc, htail]

/-- A one-file filesystem. -/
def singleFS (path : String) (content : List Nat) (mt : Int) : FS :=
  fun p => if p = path then some ⟨content, mt⟩ else none

/-- The defaults `loadConfig` installs before reading the TOML file. -/
def defaultPerformanceConfig : PerformanceConfig :=
  { workerThreads := 8, batchSize := 50, maxThumbnailSize := 100 }

/-- The preview defaults of `loadConfig`. -/
def defaultPreviewConfig : PreviewConfig :=
  { quality := "medium", jpegQuality := 85, videoThumbnails := true }

/-- Image operations whose decoders always return a decode error —
used to instantiate theorems at concrete inputs. -/
def trivialOps : ImageOps Nat :=
  { jpegDecode := fun _ => .err
    pngDecode := fun _ => .err
    gifDecode := fun _ => .err
    bmpDecode := fun _ => .err
    tiffDecode := fun _ => .err
    webpDecode := fun _ => .err
    sniffDecode := fun _ => .err
    isPaletted := fun _ => false
    paletteToRGBA := fun i => .ok i
    width := fun _ => 0
    height := fun _ => 0
    resizeL3 := fun _ _ i => .ok i
    jpegEncode := fun _ _ => .ok none
    base64 := fun _ => "" }

/-- Image operations whose JPEG decoder raises a runtime fault —
a corrupted input that panics inside the decode call. -/
def faultingJpegOps : ImageOps Nat :=
  { trivialOps with jpegDecode := fun _ => .fault }

/-- An environment with no external tooling. -/
def trivialEnv : VideoEnv :=
  { ffmpegPresent := false, tmpCreateOk := false, frame := fun _ => none }

/-- An environment where `ffmpeg` is present and frame extraction
succeeds. -/
def ffmpegOkEnv : VideoEnv :=
  { ffmpegPresent := true, tmpCreateOk := true, frame := fun _ => some [1, 2, 3] }

/-! ## The claims -/

/-- C1: for every directory tree, no file whose path lies under a
directory that the traversal marks skip-subtree (for example a
directory whose name begins with `.`) is ever enqueued for worker
processing, and every discovered `MediaFile` record's path comes from
an enqueued path — so no such file appears among the records either. -/
theorem c1_skip_subtree_never_enqueued {Img : Type}
    (cfg : ScannerConfig) (pcfg : PerformanceConfig) (vcfg : PreviewConfig)
    (ops : ImageOps Img) (env : VideoEnv) (fs : FS)
    (parent : Path) (t : FsTree) (s q : Path) (m : MediaFile)
    (hs : s ∈ skippedDirPaths cfg parent t)
    (hq : q ∈ walkCollect cfg parent t) :
    ¬(s <+: q ∧ s ≠ q)
    ∧ (m ∈ scanRecords cfg pcfg vcfg ops env fs parent t →
        m.path ∈ (walkCollect cfg parent t).map pathToString) := by
  constructor
  · rintro ⟨hpre, hne⟩
    obtain ⟨s', n, rfl, hlen, hskip⟩ := skippedDirPaths_shape t parent s hs
    have hfalse := walkCollect_chain t parent q hq s' n hpre hlen hne
    rw [hfalse] at hskip
    exact absurd hskip (by simp)
  · intro hm
    obtain ⟨q', hq', he⟩ := List.mem_filterMap.mp hm
    have := emitted_path_eq pcfg vcfg ops env fs (pathToString q') m he
    exact this ▸ List.mem_map_of_mem pathToString hq'

/-- The scanner configuration of the C1 witness: hidden directories
skipped, nothing else configured. -/
def c1cfg : ScannerConfig := ⟨[], [], true, []⟩

/-- The tree of the C1 witness: a hidden directory with a media file
inside, next to a plain media file. -/
def c1tree : FsTree := .dir "root" [.dir ".hide" [.file "x.jpg"], .file "a.jpg"]

theorem c1_skip_subtree_never_enqueued_witness :
    (["root", ".hide"] ∈ skippedDirPaths c1cfg [] c1tree
      ∧ ["root", "a.jpg"] ∈ walkCollect c1cfg [] c1tree)
    ∧ (¬((["root", ".hide"] : Path) <+: ["root", "a.jpg"] ∧ (["root", ".hide"] : Path) ≠ ["root", "a.jpg"])
       ∧ (⟨"", "", 0, "", "", 0, ""⟩ ∈
            scanRecords c1cfg defaultPerformanceConfig defaultPreviewConfig trivialOps trivialEnv
              (singleFS "root/a.jpg" [0] 0) [] c1tree →
          MediaFile.path ⟨"", "", 0, "", "", 0, ""⟩ ∈ (walkCollect c1cfg [] c1tree).map pathToString)) :=
  ⟨⟨by decide, by decide⟩,
   c1_skip_subtree_never_enqueued c1cfg defaultPerformanceConfig defaultPreviewConfig trivialOps
     trivialEnv (singleFS "root/a.jpg" [0] 0) [] c1tree ["root", ".hide"] ["root", "a.jpg"]
     ⟨"", "", 0, "", "", 0, ""⟩ (by decide) (by decide)⟩

/-- The configuration of the C2 scenario: exactly one per-folder rule,
on `/P`, with allow-list `["a"]`, empty block-list and recursion
enabled, and no other pruning configured. -/
def c2cfg (P : Path) : ScannerConfig := ⟨[], [], false, [(P, ⟨["a"], [], true⟩)]⟩

theorem dirSkip_c2_of_ne {P par : Path} (n : String) (h : P ≠ par) :
    dirSkip (c2cfg P) n par = false := by
  simp [dirSkip, c2cfg, lookupRule, isHiddenName, h]

theorem dirSkip_c2_at (P : Path) (n : String) :
    dirSkip (c2cfg P) n P = decide ¬(n = "a") := by
  simp [dirSkip, c2cfg, lookupRule]

/-- C2: with a folder rule `{allowed: ["a"], blocked: [], recursive:
true}` on `/P` and a scan rooted at or above `/P`'s parent, every file
of the tree strictly under `/P/a` is enqueued (and, when the worker
emits a record for it, that record is in the scan results), and no
enqueued path lies strictly under `/P/b`. -/
theorem c2_folder_rule_allow_list {Img : Type}
    (pcfg : PerformanceConfig) (vcfg : PreviewConfig) (ops : ImageOps Img)
    (env : VideoEnv) (fs : FS) (P startParent : Path) (t : FsTree) (q q' : Path)
    (m : MediaFile) (hroot : startParent.length ≤ P.length) :
    (q ∈ allFilePaths startParent t → P ++ ["a"] <+: q → P ++ ["a"] ≠ q →
       q ∈ walkCollect (c2cfg P) startParent t
       ∧ (emittedOf (processPath pcfg vcfg ops env fs (pathToString q)) = some m →
           m ∈ scanRecords (c2cfg P) pcfg vcfg ops env fs startParent t))
    ∧ (q' ∈ walkCollect (c2cfg P) startParent t →
       ¬(P ++ ["b"] <+: q' ∧ P ++ ["b"] ≠ q')) := by
  constructor
  · intro hq hpre hne
    have hmem : q ∈ walkCollect (c2cfg P) startParent t := by
      refine walkCollect_complete t startParent q hq ?_
      intro s' n h1 h2 h3
      by_cases hP : P = s'
      · subst hP
        have hna : n = "a" := by
          have hlenq : (P ++ [n]).length ≤ q.length := h1.length_le
          have : P ++ [n] = P ++ ["a"] :=
            prefix_eq_of_length h1 hpre (by simp)
          simpa using this
        subst hna
        rw [dirSkip_c2_at]
        simp
      · exact dirSkip_c2_of_ne n hP
    refine ⟨hmem, fun he => ?_⟩
    exact List.mem_filterMap.mpr ⟨q, hmem, he⟩
  · rintro hq' ⟨hpre, hne⟩
    have hfalse := walkCollect_chain t startParent q' hq' P "b" hpre hroot hne
    rw [dirSkip_c2_at] at hfalse
    simp at hfalse

/-- The tree of the C2 witness. -/
def c2tree : FsTree :=
  .dir "root" [.dir "P" [.dir "a" [.file "x.jpg"], .dir "b" [.file "y.jpg"]]]

theorem c2_folder_rule_allow_list_witness :
    ([] : Path).length ≤ (["root", "P"] : Path).length
    ∧ ((["root", "P", "a", "x.jpg"] ∈ allFilePaths [] c2tree →
          ["root", "P"] ++ ["a"] <+: ["root", "P", "a", "x.jpg"] →
          ["root", "P"] ++ ["a"] ≠ ["root", "P", "a", "x.jpg"] →
          ["root", "P", "a", "x.jpg"] ∈ walkCollect (c2cfg ["root", "P"]) [] c2tree
          ∧ (emittedOf (processPath defaultPerformanceConfig defaultPreviewConfig trivialOps
                trivialEnv (singleFS "root/P/a/x.jpg" [0] 0)
                (pathToString ["root", "P", "a", "x.jpg"])) = some
                  ⟨"root/P/a/x.jpg", "x.jpg", 1, "image", "", 0, "root/P/a"⟩ →
              ⟨"root/P/a/x.jpg", "x.jpg", 1, "image", "", 0, "root/P/a"⟩ ∈
                scanRecords (c2cfg ["root", "P"]) defaultPerformanceConfig defaultPreviewConfig
                  trivialOps trivialEnv (singleFS "root/P/a/x.jpg" [0] 0) [] c2tree))
       ∧ (["root", "P", "b", "y.jpg"] ∈ walkCollect (c2cfg ["root", "P"]) [] c2tree →
          ¬(["root", "P"] ++ ["b"] <+: ["root", "P", "b", "y.jpg"]
            ∧ ["root", "P"] ++ ["b"] ≠ ["root", "P", "b", "y.jpg"]))) :=
  ⟨by decide,
   c2_folder_rule_allow_list defaultPerformanceConfig defaultPreviewConfig trivialOps trivialEnv
     (singleFS "root/P/a/x.jpg" [0] 0) ["root", "P"] [] c2tree
     ["root", "P", "a", "x.jpg"] ["root", "P", "b", "y.jpg"]
     ⟨"root/P/a/x.jpg", "x.jpg", 1, "image", "", 0, "root/P/a"⟩ (by decide)⟩

/-- C3: the pruning rules act on directories only.  A plain file all of
whose ancestor directories pass the skip checks is enqueued whatever
its own name is (in particular a name beginning with `.`), and the
worker's keep/drop decision for a pulled path is by extension
classification and `os.Stat` alone: a classified, stat-able path is
never dropped. -/
theorem c3_files_not_pruned {Img : Type}
    (cfg : ScannerConfig) (pcfg : PerformanceConfig) (vcfg : PreviewConfig)
    (ops : ImageOps Img) (env : VideoEnv) (fs : FS) (parent : Path) (t : FsTree)
    (q : Path) (path : String) (fd : FileData) (ty : String)
    (hq : q ∈ allFilePaths parent t)
    (hchain : ∀ s' : Path, ∀ n : String, s' ++ [n] <+: q → parent.length ≤ s'.length →
      s' ++ [n] ≠ q → dirSkip cfg n s' = false) :
    q ∈ walkCollect cfg parent t
    ∧ (classifyExt (strLower (extOf path)) = some ty → fs path = some fd →
        processPath pcfg vcfg ops env fs path ≠ .dropped) := by
  refine ⟨walkCollect_complete t parent q hq hchain, ?_⟩
  intro hcl hfs
  simp only [processPath, hcl, hfs]
  split
  · split <;> simp
  · split <;> simp

/-- The tree of the C3 witness: a hidden-named plain file inside a
normal directory, with hidden-directory pruning switched on. -/
def c3tree : FsTree := .dir "root" [.file ".secret.png"]

theorem c3_files_not_pruned_witness :
    (["root", ".secret.png"] ∈ allFilePaths [] c3tree
      ∧ isHiddenName ".secret.png" = true
      ∧ classifyExt (strLower (extOf "root/.secret.png")) = some "image"
      ∧ singleFS "root/.secret.png" [7] 3 "root/.secret.png" = some ⟨[7], 3⟩)
    ∧ (["root", ".secret.png"] ∈ walkCollect c1cfg [] c3tree
       ∧ (classifyExt (strLower (extOf "root/.secret.png")) = some "image" →
           singleFS "root/.secret.png" [7] 3 "root/.secret.png" = some ⟨[7], 3⟩ →
           processPath defaultPerformanceConfig defaultPreviewConfig trivialOps trivialEnv
             (singleFS "root/.secret.png" [7] 3) "root/.secret.png" ≠ .dropped)) :=
  ⟨⟨by decide, by decide, by decide, by decide⟩,
   c3_files_not_pruned c1cfg defaultPerformanceConfig defaultPreviewConfig trivialOps trivialEnv
     (singleFS "root/.secret.png" [7] 3) [] c3tree ["root", ".secret.png"]
     "root/.secret.png" ⟨[7], 3⟩ "image" (by decide)
     (by
       intro s' n h1 h2 h3
       obtain ⟨rest, hr⟩ := h1
       match s' with
       | [] =>
         simp only [List.nil_append, List.cons_append] at hr
         have hn : n = "root" := by
           have := congrArg (fun l => l.headD "") hr
           simpa using this
         subst hn
         decide
       | a :: s'' =>
         exfalso
         simp only [List.cons_append] at hr
         have ha : a = "root" := by
           have := congrArg (fun l => l.headD "") hr
           simpa using this
         have htail : s'' ++ [n] ++ rest = [".secret.png"] := by
           have := congrArg List.tail hr
           simpa using this
         match s'', htail with
         | [], htail =>
           simp only [List.nil_append, List.cons_append] at htail
           have hn : n = ".secret.png" := by
             have := congrArg (fun l => l.headD "") htail
             simpa using this
           have hrest : rest = [] := by
             have := congrArg List.tail htail
             simpa using this
           apply h3
           subst ha hn
           simp
         | b :: s''', htail =>
           have := congrArg List.length htail
           simp at this)⟩

/-- C4: a `StartScan` call with an empty start path while default scan
directories are configured launches `performMultiScan` over exactly the
configured directories, and that traversal visits each of them in
sequence — it does not fall back to a single path. -/
theorem c4_default_directories_scanned (s : AppState) (dirs : List String)
    (home : Option String) (d : String) (ds : List String)
    (hscan : s.scanning = false) (hdirs : dirs = d :: ds) :
    (StartScan s dirs home "").2 = .ok (.multi dirs)
    ∧ performMultiScanVisits none dirs = dirs
    ∧ ∀ p : String, (StartScan s dirs home "").2 ≠ .ok (.single p) := by
  subst hdirs
  refine ⟨?_, performMultiScanVisits_none _, ?_⟩
  · simp [StartScan, hscan]
  · intro p
    simp [StartScan, hscan]

theorem c4_default_directories_scanned_witness :
    ((⟨false, false, false, [], [], [], []⟩ : AppState).scanning = false
      ∧ (["/pics", "/vids"] : List String) = "/pics" :: ["/vids"])
    ∧ ((StartScan ⟨false, false, false, [], [], [], []⟩ ["/pics", "/vids"] (some "/home/u") "").2
         = .ok (.multi ["/pics", "/vids"])
       ∧ performMultiScanVisits none ["/pics", "/vids"] = ["/pics", "/vids"]
       ∧ ∀ p : String,
           (StartScan ⟨false, false, false, [], [], [], []⟩ ["/pics", "/vids"] (some "/home/u") "").2
             ≠ .ok (.single p)) :=
  ⟨⟨rfl, rfl⟩,
   c4_default_directories_scanned ⟨false, false, false, [], [], [], []⟩ ["/pics", "/vids"]
     (some "/home/u") "/pics" ["/vids"] rfl rfl⟩

/-- A decoder set whose JPEG decoder succeeds exactly on the complete
one-byte file `[7]` — it errs on any other input, in particular on
every truncation of that file — and whose JPEG encoder succeeds.
Decoding (and thumbnail production) genuinely can succeed with these
operations, but only from the file's full contents. -/
def wholeFileJpegOps : ImageOps Nat :=
  { trivialOps with
    jpegDecode := fun bs => if bs = [7] then .ok 0 else .err
    jpegEncode := fun _ _ => .ok (some [1]) }

/-- C5: image thumbnail generation reads at most
`MaxThumbnailSize*1024*1024` bytes of the source file — its result
depends only on that prefix of the contents, whatever the decoders do —
and for a source image larger than the bound, provided the file is
exactly one encoded image (the selected decoder errs on every proper
prefix of *this file's* contents, while it may well succeed on the
complete contents), the `io.LimitReader` truncation makes the decode
fail: the thumbnail is the empty string, no error is surfaced, and the
worker still emits the `MediaFile` record, with an empty thumbnail
field. -/
theorem c5_thumbnail_byte_bound {Img : Type}
    (pcfg : PerformanceConfig) (vcfg : PreviewConfig) (ops : ImageOps Img)
    (env : VideoEnv) (path : String) (content : List Nat) (mt : Int)
    (hstrict : ∀ k : Nat, k < content.length →
        decodeByExt ops (strLower (extOf path)) (content.take k) = .err)
    (hbig : pcfg.maxThumbnailSize * 1024 * 1024 < content.length) :
    (∀ (c₁ c₂ : List Nat) (m₁ m₂ : Int),
        c₁.take (pcfg.maxThumbnailSize * 1024 * 1024)
            = c₂.take (pcfg.maxThumbnailSize * 1024 * 1024) →
        generateImageThumbnail pcfg vcfg ops (singleFS path c₁ m₁) path
          = generateImageThumbnail pcfg vcfg ops (singleFS path c₂ m₂) path)
    ∧ generateImageThumbnail pcfg vcfg ops (singleFS path content mt) path = .ret ""
    ∧ (classifyExt (strLower (extOf path)) = some "image" →
        processPath pcfg vcfg ops env (singleFS path content mt) path =
          .emit ⟨path, baseName path, (content.length : Int), "image", "", mt, dirName path⟩) := by
  have hdec : decodeByExt ops (strLower (extOf path))
      (content.take (pcfg.maxThumbnailSize * 1024 * 1024)) = .err :=
    hstrict _ hbig
  have hret : generateImageThumbnail pcfg vcfg ops (singleFS path content mt) path = .ret "" := by
    simp [generateImageThumbnail, singleFS, hdec]
  refine ⟨?_, hret, ?_⟩
  · intro c₁ c₂ m₁ m₂ h
    simp [generateImageThumbnail, singleFS, h]
  · intro hcl
    simp [processPath, hcl, singleFS, hret]

theorem c5_thumbnail_byte_bound_witness :
    ((∀ k : Nat, k < ([7] : List Nat).length →
        decodeByExt wholeFileJpegOps (strLower (extOf "a.jpg")) (([7] : List Nat).take k) = .err)
      ∧ (⟨8, 50, 0⟩ : PerformanceConfig).maxThumbnailSize * 1024 * 1024
          < ([7] : List Nat).length)
    ∧ ((∀ (c₁ c₂ : List Nat) (m₁ m₂ : Int),
          c₁.take ((⟨8, 50, 0⟩ : PerformanceConfig).maxThumbnailSize * 1024 * 1024)
              = c₂.take ((⟨8, 50, 0⟩ : PerformanceConfig).maxThumbnailSize * 1024 * 1024) →
          generateImageThumbnail ⟨8, 50, 0⟩ defaultPreviewConfig wholeFileJpegOps
              (singleFS "a.jpg" c₁ m₁) "a.jpg"
            = generateImageThumbnail ⟨8, 50, 0⟩ defaultPreviewConfig wholeFileJpegOps
              (singleFS "a.jpg" c₂ m₂) "a.jpg")
       ∧ generateImageThumbnail ⟨8, 50, 0⟩ defaultPreviewConfig wholeFileJpegOps
           (singleFS "a.jpg" [7] 0) "a.jpg" = .ret ""
       ∧ (classifyExt (strLower (extOf "a.jpg")) = some "image" →
           processPath ⟨8, 50, 0⟩ defaultPreviewConfig wholeFileJpegOps trivialEnv
             (singleFS "a.jpg" [7] 0) "a.jpg" =
             .emit ⟨"a.jpg", baseName "a.jpg", (([7] : List Nat).length : Int), "image", "", 0,
               dirName "a.jpg"⟩))
    ∧ generateImageThumbnail ⟨8, 50, 1⟩ defaultPreviewConfig wholeFileJpegOps
        (singleFS "a.jpg" [7] 0) "a.jpg" ≠ .ret "" :=
  have hstrict : ∀ k : Nat, k < ([7] : List Nat).length →
      decodeByExt wholeFileJpegOps (strLower (extOf "a.jpg")) (([7] : List Nat).take k) = .err :=
    fun k hk => by
      have h1 : ([7] : List Nat).length = 1 := rfl
      rw [h1] at hk
      have hk0 : k = 0 := by omega
      subst hk0
      decide
  ⟨⟨hstrict, by decide⟩,
   c5_thumbnail_byte_bound ⟨8, 50, 0⟩ defaultPreviewConfig wholeFileJpegOps trivialEnv "a.jpg"
     [7] 0 hstrict (by decide),
   by decide⟩

/-- C6 counterexample: the recovering guard of
`generateImageThumbnail` is installed only *after* the decode call, so
a runtime fault raised inside the decoder itself is not contained: it
escapes the function (and would kill the worker goroutine), instead of
resolving to an empty thumbnail. -/
theorem c6_decode_fault_escapes :
    generateImageThumbnail defaultPerformanceConfig defaultPreviewConfig faultingJpegOps
      (singleFS "x.jpg" [0] 0) "x.jpg" = .panicked
    ∧ generateImageThumbnail defaultPerformanceConfig defaultPreviewConfig faultingJpegOps
      (singleFS "x.jpg" [0] 0) "x.jpg" ≠ .ret ""
    ∧ processPath defaultPerformanceConfig defaultPreviewConfig faultingJpegOps trivialEnv
      (singleFS "x.jpg" [0] 0) "x.jpg" = .crash := by
  decide

/-- C6 (amended): a decode *error* resolves to an empty thumbnail, and
once decoding has returned an image, a runtime fault in palette
conversion, resize or encode is contained by the recovering guard and
resolves to an empty thumbnail — so if the selected decoder cannot
fault (it returns a value or an error), thumbnail generation never
panics and the worker never crashes.  A fault raised *during* decode,
however, escapes (see the counterexample). -/
theorem c6_faults_contained_after_decode {Img : Type}
    (pcfg : PerformanceConfig) (vcfg : PreviewConfig) (ops : ImageOps Img)
    (env : VideoEnv) (fs : FS) (path : String)
    (hdec : ∀ bs : List Nat, decodeByExt ops (strLower (extOf path)) bs ≠ .fault) :
    generateImageThumbnail pcfg vcfg ops fs path ≠ .panicked
    ∧ processPath pcfg vcfg ops env fs path ≠ .crash := by
  have hg : generateImageThumbnail pcfg vcfg ops fs path ≠ .panicked := by
    simp only [generateImageThumbnail]
    split
    · simp
    · split
      · rename_i heq
        exact absurd heq (hdec _)
      · simp
      · split
        · simp
        · split
          · simp
          · split <;> simp
  refine ⟨hg, ?_⟩
  simp only [processPath]
  split
  · simp
  · split
    · simp
    · split
      · split
        · rename_i hgen
          exact absurd hgen hg
        · simp
      · split <;> simp

theorem c6_faults_contained_after_decode_witness :
    (∀ bs : List Nat,
        decodeByExt trivialOps (strLower (extOf "x.jpg")) bs ≠ .fault)
    ∧ (generateImageThumbnail defaultPerformanceConfig defaultPreviewConfig trivialOps
         (singleFS "x.jpg" [0] 0) "x.jpg" ≠ .panicked
       ∧ processPath defaultPerformanceConfig defaultPreviewConfig trivialOps trivialEnv
         (singleFS "x.jpg" [0] 0) "x.jpg" ≠ .crash) :=
  have hdec : ∀ bs : List Nat,
      decodeByExt trivialOps (strLower (extOf "x.jpg")) bs ≠ .fault := by
    intro bs
    have hext : strLower (extOf "x.jpg") = ".jpg" := by decide
    simp [hext, decodeByExt, trivialOps]
  ⟨hdec,
   c6_faults_contained_after_decode defaultPerformanceConfig defaultPreviewConfig trivialOps
     trivialEnv (singleFS "x.jpg" [0] 0) "x.jpg" hdec⟩

/-- C7: after `StopScan`, `IsScanning` reports `false`; whatever the
cancellation cut-off, the event stream of `performScan` still ends in a
`ScanProgress` notification with `isComplete = true`; and the records
delivered up to any point of the stream are a prefix of all delivered
records — nothing already emitted is retracted or rolled back. -/
theorem c7_cancellation_completes {Img : Type} (st : AppState)
    (pcfg : PerformanceConfig) (vcfg : PreviewConfig) (ops : ImageOps Img)
    (env : VideoEnv) (fs : FS) (enqueued : List String) (procCount : Nat)
    (mid : List (Nat × Nat × String)) (j : Nat) :
    IsScanning (StopScan st) = false
    ∧ (∃ p : ScanProgress,
        (performScanTrace pcfg vcfg ops env fs enqueued procCount mid).getLast?
            = some (.progress p)
        ∧ p.isComplete = true)
    ∧ delivered ((performScanTrace pcfg vcfg ops env fs enqueued procCount mid).take j)
        <+: delivered (performScanTrace pcfg vcfg ops env fs enqueued procCount mid) := by
  refine ⟨rfl, ⟨⟨0, 0, "", true⟩, ?_, rfl⟩, delivered_take_prefix _ j⟩
  simp [performScanTrace, List.getLast?_concat]

/-- C8: `StartScan` while a scan is active returns the error
synchronously and leaves the whole application state — the running
flag, the cancellation function, and all collected index structures —
untouched, launching nothing. -/
theorem c8_start_rejected_while_scanning (s : AppState) (dirs : List String)
    (home : Option String) (startPath : String) (h : s.scanning = true) :
    StartScan s dirs home startPath = (s, .error "scan already in progress") := by
  simp [StartScan, h]

theorem c8_start_rejected_while_scanning_witness :
    (⟨true, true, false, [("p", ⟨"p", "p", 0, "image", "", 0, "."⟩)], [(".", ["p"])],
        [("image", ["p"])], ["p"]⟩ : AppState).scanning = true
    ∧ StartScan
        ⟨true, true, false, [("p", ⟨"p", "p", 0, "image", "", 0, "."⟩)], [(".", ["p"])],
          [("image", ["p"])], ["p"]⟩ ["/d"] (some "/home/u") "/d/sub"
        = (⟨true, true, false, [("p", ⟨"p", "p", 0, "image", "", 0, "."⟩)], [(".", ["p"])],
            [("image", ["p"])], ["p"]⟩, .error "scan already in progress") :=
  ⟨rfl,
   c8_start_rejected_while_scanning
     ⟨true, true, false, [("p", ⟨"p", "p", 0, "image", "", 0, "."⟩)], [(".", ["p"])],
       [("image", ["p"])], ["p"]⟩ ["/d"] (some "/home/u") "/d/sub" rfl⟩

/-- C9: the front end's kind filter is exact: with `filter = "video"`
and every other filter field empty, a record is in the filtered (and
sorted) list exactly when it is one of the loaded records and its kind
is `video`, for any contents and any sort key. -/
theorem c9_filter_kind_video_exact (files : List TsMedia) (sortBy : String) (m : TsMedia) :
    m ∈ filterAndSortMedia files "video" "" "" none none sortBy
      ↔ m ∈ files ∧ m.type = "video" := by
  simp [filterAndSortMedia, mem_tsSort, List.mem_filter,
    show ("video" : String) ≠ "all" from by decide]

/-- C10 counterexample: with video thumbnails enabled in the
configuration (the default) and `ffmpeg` available and succeeding, the
worker emits a `MediaFile` of kind `video` whose thumbnail field is
*not* empty — video records are not thumbnail-free regardless of
configuration. -/
theorem c10_video_record_with_thumbnail :
    processPath defaultPerformanceConfig defaultPreviewConfig trivialOps ffmpegOkEnv
        (singleFS "v.mp4" [9] 5) "v.mp4"
      = .emit ⟨"v.mp4", "v.mp4", 1, "video", "data:image/jpeg;base64,", 5, "."⟩
    ∧ ("data:image/jpeg;base64," : String) ≠ ""
    ∧ ("video" : String) ≠ "image" := by
  decide

/-- C10 (amended): video records carry an empty thumbnail only under
the configuration gate: when `Preview.VideoThumbnails` is disabled,
every record the worker emits with kind `video` has an empty thumbnail
field (with it enabled, a video record may carry one — see the
counterexample). -/
theorem c10_video_thumbnail_gated_by_config {Img : Type}
    (pcfg : PerformanceConfig) (vcfg : PreviewConfig) (ops : ImageOps Img)
    (env : VideoEnv) (fs : FS) (path : String) (m : MediaFile)
    (hv : vcfg.videoThumbnails = false)
    (hemit : processPath pcfg vcfg ops env fs path = .emit m)
    (hty : m.type = "video") :
    m.thumbnail = "" := by
  simp only [processPath] at hemit
  split at hemit
  · exact absurd hemit (by simp)
  · split at hemit
    · exact absurd hemit (by simp)
    · split at hemit
      · rename_i hmt
        split at hemit
        · exact absurd hemit (by simp)
        · simp only [WorkerAct.emit.injEq] at hemit
          rw [← hemit] at hty
          simp [hmt] at hty
      · split at hemit
        · rename_i hcond
          rw [hv] at hcond
          simp at hcond
        · simp only [WorkerAct.emit.injEq] at hemit
          rw [← hemit]

theorem c10_video_thumbnail_gated_by_config_witness :
    ((⟨"medium", 85, false⟩ : PreviewConfig).videoThumbnails = false
      ∧ processPath defaultPerformanceConfig ⟨"medium", 85, false⟩ trivialOps ffmpegOkEnv
          (singleFS "v.mp4" [9] 5) "v.mp4"
          = .emit ⟨"v.mp4", "v.mp4", 1, "video", "", 5, "."⟩
      ∧ (⟨"v.mp4", "v.mp4", 1, "video", "", 5, "."⟩ : MediaFile).type = "video")
    ∧ (⟨"v.mp4", "v.mp4", 1, "video", "", 5, "."⟩ : MediaFile).thumbnail = "" :=
  ⟨⟨rfl, by decide, rfl⟩,
   c10_video_thumbnail_gated_by_config defaultPerformanceConfig ⟨"medium", 85, false⟩ trivialOps
     ffmpegOkEnv (singleFS "v.mp4" [9] 5) "v.mp4" ⟨"v.mp4", "v.mp4", 1, "video", "", 5, "."⟩
     rfl (by decide) rfl⟩

end Poto
